import Mathlib

/-!
Shallow embedding of the PNGme chunk codec (src/chunk_type.rs, src/chunk.rs).

Bytes are modelled as `Nat` values (< 256 where it matters), byte strings as
`List Nat`, and 32-bit machine integers as `Nat` with explicit `% 2 ^ 32`
where Rust wraps.  Rust `split_at` out of bounds panics, so the result type of
`Chunk::try_from` has an explicit `panic` outcome next to `ok` and `err`.
-/

namespace PNGme

/-- `u32::from_be_bytes` generalized to a byte list (big-endian accumulation). -/
def fromBeBytes (l : List Nat) : Nat := l.foldl (fun a b => a * 256 + b) 0

/-- `u32::to_be_bytes`: the four big-endian bytes of a 32-bit value. -/
def toBeBytes (n : Nat) : List Nat :=
  [n / 2 ^ 24 % 256, n / 2 ^ 16 % 256, n / 2 ^ 8 % 256, n % 256]

/-- The CRC-32 (IEEE) polynomial in bit-reversed form, `0xEDB88320`. -/
def crcPoly : Nat := 0xEDB88320

/-- One bit step of CRC-32: shift right, xoring the polynomial in when the
low bit was set. -/
def crcStep (c : Nat) : Nat :=
  if c % 2 = 1 then (c / 2) ^^^ crcPoly else c / 2

/-- Eight bit steps: how one absorbed byte is diffused into the state. -/
def crcRound (c : Nat) : Nat :=
  crcStep (crcStep (crcStep (crcStep (crcStep (crcStep (crcStep (crcStep c)))))))

/-- Absorb one byte into the running CRC state. -/
def crcUpdate (c b : Nat) : Nat := crcRound (c ^^^ b)

/-- Run the CRC state over a byte list. -/
def crcFold (c : Nat) : List Nat → Nat
  | [] => c
  | b :: l => crcFold (crcUpdate c b) l

/-- `crc::crc32::checksum_ieee`: init all-ones, bitwise update, final
complement. -/
def checksum_ieee (data : List Nat) : Nat :=
  crcFold 0xFFFFFFFF data ^^^ 0xFFFFFFFF

/-- The 4-byte chunk type of src/chunk_type.rs (`[u8; 4]` modelled as a byte
list; well-formedness `bytes.length = 4` is carried as a hypothesis where
needed). -/
structure ChunkType where
  bytes : List Nat
deriving DecidableEq

/-- A byte within the two ASCII letter ranges accepted by chunk-type
validation (`(65..=90).contains(b) || (97..=122).contains(b)`). -/
def isLetterByte (b : Nat) : Bool := (65 ≤ b && b ≤ 90) || (97 ≤ b && b ≤ 122)

/-- `ChunkType::is_critical`: bit 5 (value 32) of the first byte is 0. -/
def ChunkType.is_critical (t : ChunkType) : Bool := t.bytes.getD 0 0 &&& 32 == 0

/-- `ChunkType::is_public`: bit 5 (value 32) of the second byte is 0. -/
def ChunkType.is_public (t : ChunkType) : Bool := t.bytes.getD 1 0 &&& 32 == 0

/-- `ChunkType::is_reserved_bit_valid`: bit 5 (value 32) of the third byte
is 0. -/
def ChunkType.is_reserved_bit_valid (t : ChunkType) : Bool :=
  t.bytes.getD 2 0 &&& 32 == 0

/-- `ChunkType::is_safe_to_copy`: bit 5 (value 32) of the fourth byte is 1. -/
def ChunkType.is_safe_to_copy (t : ChunkType) : Bool :=
  t.bytes.getD 3 0 &&& 32 != 0

/-- `ChunkType::is_valid`: all bytes in the ASCII letter ranges and the
reserved bit valid. -/
def ChunkType.is_valid (t : ChunkType) : Bool :=
  t.bytes.all isLetterByte && t.is_reserved_bit_valid

/-- Errors of `ChunkType::from_str` (src/chunk_type.rs). -/
inductive ChunkTypeError where
  | byteLengthError (actual : Nat)
  | invalidCharacter
deriving DecidableEq

/-- `ChunkType::from_str`, acting on the byte content of the input string. -/
def ChunkType.from_str (s : List Nat) : Except ChunkTypeError ChunkType :=
  if s.length ≠ 4 then .error (.byteLengthError s.length)
  else if ¬ s.all isLetterByte then .error .invalidCharacter
  else .ok ⟨s⟩

/-- The chunk record of src/chunk.rs. -/
structure Chunk where
  length : Nat
  chunk_type : ChunkType
  data : List Nat
  crc : Nat
deriving DecidableEq

/-- `Chunk::new`: the length is `data.len() as u32`, a truncating cast. -/
def Chunk.new (chunk_type : ChunkType) (data : List Nat) : Chunk :=
  { length := data.length % 2 ^ 32
    chunk_type := chunk_type
    data := data
    crc := checksum_ieee (chunk_type.bytes ++ data) }

/-- `Chunk::as_bytes`: length, type, data and CRC concatenated. -/
def Chunk.as_bytes (c : Chunk) : List Nat :=
  toBeBytes c.length ++ c.chunk_type.bytes ++ c.data ++ toBeBytes c.crc

/-- Errors of `Chunk::try_from` (src/chunk.rs `ChunkError`). -/
inductive ChunkError where
  | inputTooSmall
  | invalidCrc (expected actual : Nat)
  | invalidChunkType
deriving DecidableEq

/-- Outcome of `Chunk::try_from`: a chunk, a returned error, or a Rust panic
(the source calls `split_at` with an unchecked index). -/
inductive ParseResult where
  | ok (c : Chunk)
  | err (e : ChunkError)
  | panic
deriving DecidableEq

/-- `Chunk::try_from(&[u8])`: reject inputs under 12 bytes, read the length
field, read and validate the type, split data and CRC off the rest (panicking
exactly where Rust `split_at` would), and compare the stored CRC against one
recomputed over type and data. -/
def Chunk.tryFrom (bytes : List Nat) : ParseResult :=
  if bytes.length < 12 then .err .inputTooSmall
  else
    let length := fromBeBytes (bytes.take 4)
    let rest1 := bytes.drop 4
    let chunk_type : ChunkType := ⟨rest1.take 4⟩
    let rest2 := rest1.drop 4
    if ¬ chunk_type.is_valid then .err .invalidChunkType
    else if rest2.length < length then .panic
    else
      let data := rest2.take length
      let rest3 := rest2.drop length
      if rest3.length < 4 then .panic
      else
        let crc := fromBeBytes (rest3.take 4)
        let actual_crc := checksum_ieee (chunk_type.bytes ++ data)
        if actual_crc ≠ crc then .err (.invalidCrc crc actual_crc)
        else .ok { length := length, chunk_type := chunk_type, data := data, crc := crc }

/-- The big-endian length field of a raw chunk: its first four bytes. -/
def declaredLength (bs : List Nat) : Nat := fromBeBytes (bs.take 4)

/-- The type field of a raw chunk: bytes 4 to 7. -/
def typeField (bs : List Nat) : ChunkType := ⟨(bs.drop 4).take 4⟩

/-- The data field of a raw chunk: `declaredLength` bytes from offset 8. -/
def dataField (bs : List Nat) : List Nat := (bs.drop 8).take (declaredLength bs)

/-- The stored CRC field of a raw chunk: four bytes after the data field. -/
def storedCrcField (bs : List Nat) : Nat :=
  fromBeBytes (((bs.drop 8).drop (declaredLength bs)).take 4)

/-- The CRC recomputed over the type and data fields of a raw chunk. -/
def computedCrc (bs : List Nat) : Nat :=
  checksum_ieee ((typeField bs).bytes ++ dataField bs)

/-- A Unicode scalar value: below `0x110000` and not a surrogate. -/
def IsScalar (c : Nat) : Prop := c < 0x110000 ∧ (c < 0xD800 ∨ 0xDFFF < c)

instance (c : Nat) : Decidable (IsScalar c) := by unfold IsScalar; infer_instance

/-- UTF-8 encoding of one scalar value (1 to 4 bytes by range). -/
def utf8EncodeChar (c : Nat) : List Nat :=
  if c < 0x80 then [c]
  else if c < 0x800 then [0xC0 + c / 64, 0x80 + c % 64]
  else if c < 0x10000 then [0xE0 + c / 4096, 0x80 + c / 64 % 64, 0x80 + c % 64]
  else [0xF0 + c / 262144, 0x80 + c / 4096 % 64, 0x80 + c / 64 % 64, 0x80 + c % 64]

/-- UTF-8 encoding of a sequence of scalar values. -/
def utf8Encode (cs : List Nat) : List Nat := (cs.map utf8EncodeChar).flatten

/-- A UTF-8 continuation byte, `0x80` to `0xBF`. -/
def isContByte (b : Nat) : Bool := 0x80 ≤ b && b < 0xC0

/-- Continuation of a 2-byte UTF-8 sequence with lead byte `b`: one
continuation byte. -/
def utf8Cont2 (b : Nat) : List Nat → Option (Nat × List Nat)
  | b1 :: l =>
    if isContByte b1 then some ((b - 0xC0) * 64 + (b1 - 0x80), l) else none
  | [] => none

/-- Continuation of a 3-byte UTF-8 sequence with lead byte `b`: two
continuation bytes, rejecting overlong forms and surrogates. -/
def utf8Cont3 (b : Nat) : List Nat → Option (Nat × List Nat)
  | b1 :: b2 :: l =>
    if isContByte b1 && isContByte b2 then
      let c := (b - 0xE0) * 4096 + (b1 - 0x80) * 64 + (b2 - 0x80)
      if c < 0x800 then none
      else if 0xD800 ≤ c && c ≤ 0xDFFF then none
      else some (c, l)
    else none
  | _ => none

/-- Continuation of a 4-byte UTF-8 sequence with lead byte `b`: three
continuation bytes, rejecting overlong forms and values above `0x10FFFF`. -/
def utf8Cont4 (b : Nat) : List Nat → Option (Nat × List Nat)
  | b1 :: b2 :: b3 :: l =>
    if isContByte b1 && isContByte b2 && isContByte b3 then
      let c := (b - 0xF0) * 262144 + (b1 - 0x80) * 4096 +
        (b2 - 0x80) * 64 + (b3 - 0x80)
      if c < 0x10000 then none
      else if 0x110000 ≤ c then none
      else some (c, l)
    else none
  | _ => none

/-- Decode one UTF-8 sequence from the front of a byte list, dispatching
on the lead byte (`0xC0`/`0xC1` lead an overlong 2-byte form, `0xF5` and
above exceed `0x10FFFF`, and a stray continuation byte is rejected). -/
def utf8DecodeChar : List Nat → Option (Nat × List Nat)
  | [] => none
  | b :: l =>
    if b < 0x80 then some (b, l)
    else if b < 0xC2 then none
    else if b < 0xE0 then utf8Cont2 b l
    else if b < 0xF0 then utf8Cont3 b l
    else if b < 0xF5 then utf8Cont4 b l
    else none

/-- Decoding loop, fueled by the input length (each decoded scalar consumes
at least one byte, so the fuel never runs out when started at the input's
length). -/
def utf8DecodeAux : Nat → List Nat → Option (List Nat)
  | _, [] => some []
  | 0, _ :: _ => none
  | fuel + 1, b :: l =>
    match utf8DecodeChar (b :: l) with
    | none => none
    | some (c, rest) => (utf8DecodeAux fuel rest).map (c :: ·)

/-- `str::from_utf8`, modelled from the UTF-8 specification (RFC 3629):
decode a byte list into scalar values, rejecting truncated sequences, stray
continuation bytes, overlong forms, surrogates and values above `0x10FFFF`. -/
def utf8Decode (l : List Nat) : Option (List Nat) := utf8DecodeAux l.length l

/-- `Chunk::data_as_string`: decode the payload as UTF-8 text (the text is
represented by its list of scalar values); `none` is the `Err` case. -/
def Chunk.data_as_string (c : Chunk) : Option (List Nat) := utf8Decode c.data

/-! ## Helper lemmas -/

/-- The letter test of the source matches the two ASCII letter ranges. -/
lemma isLetterByte_iff (b : Nat) :
    isLetterByte b = true ↔ (65 ≤ b ∧ b ≤ 90) ∨ (97 ≤ b ∧ b ≤ 122) := by
  simp [isLetterByte, Bool.or_eq_true, Bool.and_eq_true, decide_eq_true_eq]

/-- Masking with 32 is zero exactly when bit 5 is clear. -/
lemma land32_eq_zero_iff (n : Nat) : n &&& 32 = 0 ↔ n.testBit 5 = false := by
  rw [show (32 : Nat) = 2 ^ 5 by norm_num, Nat.and_two_pow]
  cases h : n.testBit 5 <;> simp [h]

/-- Masking with 32 is nonzero exactly when bit 5 is set. -/
lemma land32_ne_zero_iff (n : Nat) : n &&& 32 ≠ 0 ↔ n.testBit 5 = true := by
  rw [ne_eq, land32_eq_zero_iff]
  cases h : n.testBit 5 <;> simp [h]

/-! ## C6, C7 and C8: chunk-type validation and flag predicates -/

/-- C6: for every 4-byte ChunkType value, `is_valid()` returns true if and
only if all 4 bytes are ASCII letters (65–90 or 97–122) and bit 5 (value 32)
of byte 2 (the reserved bit) is clear; in particular it is false when any
byte is not a letter. -/
theorem chunkType_is_valid_iff (b0 b1 b2 b3 : Nat) :
    (ChunkType.mk [b0, b1, b2, b3]).is_valid = true ↔
      (((65 ≤ b0 ∧ b0 ≤ 90) ∨ (97 ≤ b0 ∧ b0 ≤ 122)) ∧
       ((65 ≤ b1 ∧ b1 ≤ 90) ∨ (97 ≤ b1 ∧ b1 ≤ 122)) ∧
       ((65 ≤ b2 ∧ b2 ≤ 90) ∨ (97 ≤ b2 ∧ b2 ≤ 122)) ∧
       ((65 ≤ b3 ∧ b3 ≤ 90) ∨ (97 ≤ b3 ∧ b3 ≤ 122))) ∧
      Nat.testBit b2 5 = false := by
  simp only [ChunkType.is_valid, ChunkType.is_reserved_bit_valid,
    Bool.and_eq_true, List.all_cons, List.all_nil, Bool.and_true, beq_iff_eq,
    List.getD_cons_succ, List.getD_cons_zero, isLetterByte_iff,
    land32_eq_zero_iff]

/-- C7: for every 4-byte ChunkType value, `is_critical`, `is_public`,
`is_reserved_bit_valid` and `is_safe_to_copy` are exactly the bit-5 tests on
bytes 0, 1, 2 and 3 (the first three true when the bit is clear, the last
when it is set), with the "RuSt" and "Rust" fixtures behaving as stated. -/
theorem chunkType_flag_predicates (b0 b1 b2 b3 : Nat) :
    ((ChunkType.mk [b0, b1, b2, b3]).is_critical = true ↔
      Nat.testBit b0 5 = false) ∧
    ((ChunkType.mk [b0, b1, b2, b3]).is_public = true ↔
      Nat.testBit b1 5 = false) ∧
    ((ChunkType.mk [b0, b1, b2, b3]).is_reserved_bit_valid = true ↔
      Nat.testBit b2 5 = false) ∧
    ((ChunkType.mk [b0, b1, b2, b3]).is_safe_to_copy = true ↔
      Nat.testBit b3 5 = true) ∧
    (ChunkType.mk [82, 117, 83, 116]).is_critical = true ∧
    (ChunkType.mk [82, 117, 83, 116]).is_public = false ∧
    (ChunkType.mk [82, 117, 83, 116]).is_reserved_bit_valid = true ∧
    (ChunkType.mk [82, 117, 83, 116]).is_safe_to_copy = true ∧
    (ChunkType.mk [82, 117, 115, 116]).is_reserved_bit_valid = false := by
  refine ⟨?_, ?_, ?_, ?_, by decide, by decide, by decide, by decide, by decide⟩
  · simp only [ChunkType.is_critical, List.getD_cons_zero, beq_iff_eq,
      land32_eq_zero_iff]
  · simp only [ChunkType.is_public, List.getD_cons_succ, List.getD_cons_zero,
      beq_iff_eq, land32_eq_zero_iff]
  · simp only [ChunkType.is_reserved_bit_valid, List.getD_cons_succ,
      List.getD_cons_zero, beq_iff_eq, land32_eq_zero_iff]
  · simp only [ChunkType.is_safe_to_copy, List.getD_cons_succ,
      List.getD_cons_zero, bne_iff_ne, land32_ne_zero_iff]

/-- C8: for every input string (given by its bytes), `from_str` fails with
the length error carrying the actual length when the length is not 4, fails
with the invalid-character error when some byte is outside the two ASCII
letter ranges, and otherwise succeeds with a ChunkType holding exactly the
string's bytes. -/
theorem chunkType_from_str_spec (s : List Nat) :
    (s.length ≠ 4 →
      ChunkType.from_str s = .error (.byteLengthError s.length)) ∧
    (s.length = 4 →
      ¬ (∀ b ∈ s, (65 ≤ b ∧ b ≤ 90) ∨ (97 ≤ b ∧ b ≤ 122)) →
      ChunkType.from_str s = .error .invalidCharacter) ∧
    (s.length = 4 →
      (∀ b ∈ s, (65 ≤ b ∧ b ≤ 90) ∨ (97 ≤ b ∧ b ≤ 122)) →
      ChunkType.from_str s = .ok ⟨s⟩) := by
  refine ⟨fun h => ?_, fun h hbad => ?_, fun h hgood => ?_⟩
  · simp [ChunkType.from_str, h]
  · have : ¬ s.all isLetterByte = true := by
      simpa [List.all_eq_true, isLetterByte_iff] using hbad
    simp [ChunkType.from_str, h, this]
  · have : s.all isLetterByte = true := by
      simpa [List.all_eq_true, isLetterByte_iff] using hgood
    simp [ChunkType.from_str, h, this]

/-- C8 witness: `from_str` on the bytes of "RuSt" succeeds with exactly
those bytes, by the three branches of the specification theorem. -/
theorem chunkType_from_str_spec_witness :
    ChunkType.from_str [82, 117, 83, 116] = .ok ⟨[82, 117, 83, 116]⟩ ∧
    ChunkType.from_str [82, 117] = .error (.byteLengthError 2) ∧
    ChunkType.from_str [82, 117, 49, 116] = .error .invalidCharacter :=
  ⟨(chunkType_from_str_spec [82, 117, 83, 116]).2.2 (by decide) (by decide),
   (chunkType_from_str_spec [82, 117]).1 (by decide),
   (chunkType_from_str_spec [82, 117, 49, 116]).2.1 (by decide) (by decide)⟩

/-! ## C2: unchecked `split_at` on an overlong declared length -/

/-- C2: on a 12-byte input whose declared length field (100) exceeds the 4
bytes remaining after the length and type fields, `Chunk::try_from` hits the
unchecked `split_at` and panics instead of returning a format error. -/
theorem tryFrom_panics_on_overlong_length :
    Chunk.tryFrom [0, 0, 0, 100, 82, 117, 83, 116, 0, 0, 0, 0] =
      .panic := by decide

/-! ## Byte-field arithmetic -/

/-- `toBeBytes` always yields four bytes. -/
lemma toBeBytes_length (n : Nat) : (toBeBytes n).length = 4 := rfl

/-- Each byte of `toBeBytes` is below 256. -/
lemma toBeBytes_mem_lt (n : Nat) : ∀ b ∈ toBeBytes n, b < 256 := by
  intro b hb
  simp only [toBeBytes, List.mem_cons, List.not_mem_nil, or_false] at hb
  rcases hb with h | h | h | h <;> omega

/-- Reading back the four big-endian bytes of a 32-bit value. -/
lemma fromBeBytes_toBeBytes {n : Nat} (h : n < 2 ^ 32) :
    fromBeBytes (toBeBytes n) = n := by
  simp only [fromBeBytes, toBeBytes, List.foldl_cons, List.foldl_nil]
  omega

/-- The big-endian value of a byte list is bounded by 256 to its length. -/
lemma fromBeBytes_lt_pow : ∀ (l : List Nat) (a : Nat), (∀ b ∈ l, b < 256) →
    List.foldl (fun a b => a * 256 + b) a l < (a + 1) * 256 ^ l.length := by
  intro l
  induction l with
  | nil => intro a _; simp
  | cons b t ih =>
    intro a hb
    have hb256 : b < 256 := hb b (List.mem_cons_self b t)
    have ht : ∀ x ∈ t, x < 256 := fun x hx => hb x (List.mem_cons_of_mem b hx)
    calc List.foldl (fun a b => a * 256 + b) (a * 256 + b) t
        < (a * 256 + b + 1) * 256 ^ t.length := ih (a * 256 + b) ht
      _ ≤ (a + 1) * 256 ^ (b :: t).length := by
          simp only [List.length_cons, pow_succ]
          have : a * 256 + b + 1 ≤ (a + 1) * 256 := by omega
          calc (a * 256 + b + 1) * 256 ^ t.length
              ≤ (a + 1) * 256 * 256 ^ t.length :=
                Nat.mul_le_mul_right _ this
            _ = (a + 1) * (256 ^ t.length * 256) := by ring

/-- The big-endian value of at most four bytes fits in 32 bits. -/
lemma fromBeBytes_lt {l : List Nat} (h4 : l.length ≤ 4)
    (hb : ∀ b ∈ l, b < 256) : fromBeBytes l < 2 ^ 32 := by
  have h := fromBeBytes_lt_pow l 0 hb
  have h2 : fromBeBytes l < 256 ^ l.length := by
    simpa [fromBeBytes] using h
  have hle : (256 : Nat) ^ l.length ≤ 256 ^ 4 :=
    Nat.pow_le_pow_right (by norm_num) h4
  have h3 := lt_of_lt_of_le h2 hle
  norm_num at h3 ⊢
  exact h3

/-! ## CRC state bounds -/

/-- One CRC bit step keeps the state within 32 bits. -/
lemma crcStep_lt {c : Nat} (h : c < 2 ^ 32) : crcStep c < 2 ^ 32 := by
  unfold crcStep crcPoly
  split
  · exact Nat.xor_lt_two_pow (by omega) (by norm_num)
  · omega

/-- Eight CRC bit steps keep the state within 32 bits. -/
lemma crcRound_lt {c : Nat} (h : c < 2 ^ 32) : crcRound c < 2 ^ 32 :=
  crcStep_lt (crcStep_lt (crcStep_lt (crcStep_lt (crcStep_lt (crcStep_lt
    (crcStep_lt (crcStep_lt h)))))))

/-- Absorbing one byte keeps the state within 32 bits. -/
lemma crcUpdate_lt {c b : Nat} (hc : c < 2 ^ 32) (hb : b < 256) :
    crcUpdate c b < 2 ^ 32 :=
  crcRound_lt (Nat.xor_lt_two_pow hc (by omega))

/-- Folding byte data keeps the state within 32 bits. -/
lemma crcFold_lt : ∀ (l : List Nat) (c : Nat), c < 2 ^ 32 →
    (∀ b ∈ l, b < 256) → crcFold c l < 2 ^ 32 := by
  intro l
  induction l with
  | nil => intro c hc _; exact hc
  | cons b t ih =>
    intro c hc hb
    exact ih _ (crcUpdate_lt hc (hb b (List.mem_cons_self b t)))
      (fun x hx => hb x (List.mem_cons_of_mem b hx))

/-- The CRC-32 of byte data fits in 32 bits. -/
lemma checksum_ieee_lt {l : List Nat} (hb : ∀ b ∈ l, b < 256) :
    checksum_ieee l < 2 ^ 32 :=
  Nat.xor_lt_two_pow (crcFold_lt l _ (by norm_num) hb) (by norm_num)

/-! ## Characterization of `Chunk::try_from` -/

/-- `Chunk::try_from` in terms of the wire-layout fields: too-small check,
type validity check, panic when the declared length overruns the input, CRC
comparison, success. -/
lemma tryFrom_eq (bs : List Nat) : Chunk.tryFrom bs =
    if bs.length < 12 then .err .inputTooSmall
    else if ¬ (typeField bs).is_valid then .err .invalidChunkType
    else if bs.length < 12 + declaredLength bs then .panic
    else if computedCrc bs ≠ storedCrcField bs then
      .err (.invalidCrc (storedCrcField bs) (computedCrc bs))
    else .ok ⟨declaredLength bs, typeField bs, dataField bs,
      storedCrcField bs⟩ := by
  simp only [Chunk.tryFrom, computedCrc, storedCrcField, dataField, typeField,
    declaredLength, List.drop_drop, List.length_drop, List.length_take]
  norm_num
  split_ifs <;> first | rfl | omega

/-- With the data in bounds, the type field has exactly four bytes. -/
lemma typeField_length {bs : List Nat} (h : 12 ≤ bs.length) :
    (typeField bs).bytes.length = 4 := by
  simp only [typeField, List.length_take, List.length_drop]
  omega

/-- With the declared length in bounds, the data field has exactly the
declared number of bytes. -/
lemma dataField_length {bs : List Nat} (h : 12 + declaredLength bs ≤ bs.length) :
    (dataField bs).length = declaredLength bs := by
  simp only [dataField, List.length_take, List.length_drop]
  omega

/-- Inversion: a successful parse pins down the chunk's fields and the
conditions the input satisfied. -/
lemma tryFrom_ok_inv {bs : List Nat} {c : Chunk}
    (h : Chunk.tryFrom bs = .ok c) :
    c = ⟨declaredLength bs, typeField bs, dataField bs, storedCrcField bs⟩ ∧
    12 ≤ bs.length ∧
    (typeField bs).is_valid = true ∧
    12 + declaredLength bs ≤ bs.length ∧
    computedCrc bs = storedCrcField bs := by
  rw [tryFrom_eq] at h
  by_cases h1 : bs.length < 12
  · rw [if_pos h1] at h; exact absurd h (by simp)
  rw [if_neg h1] at h
  by_cases h2 : ¬ (typeField bs).is_valid = true
  · rw [if_pos h2] at h; exact absurd h (by simp)
  rw [if_neg h2] at h
  by_cases h3 : bs.length < 12 + declaredLength bs
  · rw [if_pos h3] at h; exact absurd h (by simp)
  rw [if_neg h3] at h
  by_cases h4 : computedCrc bs ≠ storedCrcField bs
  · rw [if_pos h4] at h; exact absurd h (by simp)
  rw [if_neg h4] at h
  injection h with h5
  exact ⟨h5.symm, by omega, by simpa using h2, by omega, by simpa using h4⟩

/-! ## C4: the error taxonomy of `Chunk::try_from` -/

/-- C4 (amended): the claimed case analysis of `Chunk::try_from`, with the
CRC and success arms additionally guarded by the declared length fitting in
the input (`12 + L ≤ input length`); outside that guard the source panics on
an unchecked `split_at` instead. Error order and payloads are as claimed:
too-small first, then invalid type, then `InvalidCrc(stored, recomputed)`,
else success with all four fields from the input. -/
theorem tryFrom_error_cases (bs : List Nat) :
    (bs.length < 12 → Chunk.tryFrom bs = .err .inputTooSmall) ∧
    (12 ≤ bs.length → (typeField bs).is_valid = false →
      Chunk.tryFrom bs = .err .invalidChunkType) ∧
    (12 ≤ bs.length → (typeField bs).is_valid = true →
      12 + declaredLength bs ≤ bs.length →
      computedCrc bs ≠ storedCrcField bs →
      Chunk.tryFrom bs =
        .err (.invalidCrc (storedCrcField bs) (computedCrc bs))) ∧
    (12 ≤ bs.length → (typeField bs).is_valid = true →
      12 + declaredLength bs ≤ bs.length →
      computedCrc bs = storedCrcField bs →
      Chunk.tryFrom bs =
        .ok ⟨declaredLength bs, typeField bs, dataField bs,
          storedCrcField bs⟩) := by
  refine ⟨fun h => ?_, fun h12 hv => ?_, fun h12 hv hfit hne => ?_,
    fun h12 hv hfit heq => ?_⟩ <;> rw [tryFrom_eq]
  · rw [if_pos h]
  · rw [if_neg (by omega), if_pos (by simp [hv])]
  · rw [if_neg (by omega), if_neg (by simp [hv]), if_neg (by omega),
      if_pos hne]
  · rw [if_neg (by omega), if_neg (by simp [hv]), if_neg (by omega),
      if_neg (by simp [heq])]

/-- C4 counterexample: a 12-byte input with valid type "RuSt" but declared
length 50 satisfies the premises of the claim's CRC/success arms, yet
`try_from` neither succeeds nor returns an error value — it panics. -/
theorem tryFrom_error_cases_counterexample :
    12 ≤ ([0, 0, 0, 50, 82, 117, 83, 116, 0, 0, 0, 0] : List Nat).length ∧
    (typeField [0, 0, 0, 50, 82, 117, 83, 116, 0, 0, 0, 0]).is_valid = true ∧
    Chunk.tryFrom [0, 0, 0, 50, 82, 117, 83, 116, 0, 0, 0, 0] = .panic := by
  refine ⟨by decide, by decide, by decide⟩

/-- C4 witness: the four arms applied to concrete inputs — an empty input,
a "Rust" type with the reserved bit set, a "RuSt" chunk with a corrupted
stored CRC, and a well-formed empty-payload "RuSt" chunk. -/
theorem tryFrom_error_cases_witness :
    Chunk.tryFrom [] = .err .inputTooSmall ∧
    Chunk.tryFrom [0, 0, 0, 0, 82, 117, 115, 116, 0, 0, 0, 0] =
      .err .invalidChunkType ∧
    Chunk.tryFrom [0, 0, 0, 0, 82, 117, 83, 116, 0, 0, 0, 0] =
      .err (.invalidCrc
        (storedCrcField [0, 0, 0, 0, 82, 117, 83, 116, 0, 0, 0, 0])
        (computedCrc [0, 0, 0, 0, 82, 117, 83, 116, 0, 0, 0, 0])) ∧
    Chunk.tryFrom [0, 0, 0, 0, 82, 117, 83, 116, 212, 132, 9, 60] =
      .ok ⟨declaredLength [0, 0, 0, 0, 82, 117, 83, 116, 212, 132, 9, 60],
        typeField [0, 0, 0, 0, 82, 117, 83, 116, 212, 132, 9, 60],
        dataField [0, 0, 0, 0, 82, 117, 83, 116, 212, 132, 9, 60],
        storedCrcField [0, 0, 0, 0, 82, 117, 83, 116, 212, 132, 9, 60]⟩ :=
  ⟨(tryFrom_error_cases []).1 (by decide),
   (tryFrom_error_cases _).2.1 (by decide) (by decide),
   (tryFrom_error_cases _).2.2.1 (by decide) (by decide) (by decide)
     (by decide),
   (tryFrom_error_cases _).2.2.2 (by decide) (by decide) (by decide)
     (by decide)⟩

/-! ## C3: in-memory chunk invariants -/

/-- C3 (amended): every chunk built by `Chunk::new`, provided its payload
has fewer than 2^32 bytes (`data.len() as u32` truncates beyond that), and
every chunk returned by `try_from`, satisfies both invariants: the stored
CRC equals CRC32 over type bytes followed by payload bytes, and the stored
length equals the payload byte count. -/
theorem chunk_invariants :
    (∀ (t : ChunkType) (data : List Nat), data.length < 2 ^ 32 →
      (Chunk.new t data).crc =
        checksum_ieee ((Chunk.new t data).chunk_type.bytes ++
          (Chunk.new t data).data) ∧
      (Chunk.new t data).length = (Chunk.new t data).data.length) ∧
    (∀ (bs : List Nat) (c : Chunk), Chunk.tryFrom bs = .ok c →
      c.crc = checksum_ieee (c.chunk_type.bytes ++ c.data) ∧
      c.length = c.data.length) := by
  constructor
  · intro t data hlt
    refine ⟨rfl, ?_⟩
    simp only [Chunk.new]
    exact Nat.mod_eq_of_lt hlt
  · intro bs c h
    obtain ⟨hc, h12, hv, hfit, hcrc⟩ := tryFrom_ok_inv h
    subst hc
    exact ⟨hcrc.symm, (dataField_length hfit).symm⟩

/-- C3 counterexample: `Chunk::new` on a payload of exactly 2^32 bytes
stores length 0 (the truncated cast), not the payload's byte count. -/
theorem chunk_invariants_counterexample :
    (Chunk.new ⟨[82, 117, 83, 116]⟩ (List.replicate (2 ^ 32) 0)).length ≠
      (Chunk.new ⟨[82, 117, 83, 116]⟩ (List.replicate (2 ^ 32) 0)).data.length := by
  have h1 : (Chunk.new ⟨[82, 117, 83, 116]⟩ (List.replicate (2 ^ 32) 0)).length =
      2 ^ 32 % 2 ^ 32 := by
    simp only [Chunk.new, List.length_replicate]
  have h2 : (Chunk.new ⟨[82, 117, 83, 116]⟩ (List.replicate (2 ^ 32) 0)).data.length =
      2 ^ 32 := by
    simp only [Chunk.new, List.length_replicate]
  rw [h1, h2, Nat.mod_self]
  norm_num

/-- C3 witness: the invariants at a fresh "RuSt"/"Hi" chunk and at the
chunk parsed from a well-formed empty-payload "RuSt" buffer. -/
theorem chunk_invariants_witness :
    (Chunk.new ⟨[82, 117, 83, 116]⟩ [72, 105]).length =
      (Chunk.new ⟨[82, 117, 83, 116]⟩ [72, 105]).data.length ∧
    (⟨0, ⟨[82, 117, 83, 116]⟩, [], 3565422908⟩ : Chunk).crc =
      checksum_ieee ((⟨0, ⟨[82, 117, 83, 116]⟩, [], 3565422908⟩ : Chunk).chunk_type.bytes ++
        (⟨0, ⟨[82, 117, 83, 116]⟩, [], 3565422908⟩ : Chunk).data) :=
  ⟨(chunk_invariants.1 ⟨[82, 117, 83, 116]⟩ [72, 105] (by norm_num)).2,
   (chunk_invariants.2 [0, 0, 0, 0, 82, 117, 83, 116, 212, 132, 9, 60]
     ⟨0, ⟨[82, 117, 83, 116]⟩, [], 3565422908⟩ (by decide)).1⟩

/-! ## C1: parse is a left inverse of serialization -/

/-- Any chunk whose fields satisfy the construction invariants parses back
from its own serialization. -/
lemma tryFrom_as_bytes {c : Chunk}
    (ht : c.chunk_type.bytes.length = 4)
    (hv : c.chunk_type.is_valid = true)
    (hl : c.length = c.data.length)
    (hlt : c.data.length < 2 ^ 32)
    (hcrc : c.crc = checksum_ieee (c.chunk_type.bytes ++ c.data))
    (hcb : c.crc < 2 ^ 32) :
    Chunk.tryFrom c.as_bytes = .ok c := by
  have habs : c.as_bytes =
      toBeBytes c.length ++ (c.chunk_type.bytes ++ (c.data ++ toBeBytes c.crc)) := by
    simp [Chunk.as_bytes, List.append_assoc]
  have hlen : c.as_bytes.length = 12 + c.data.length := by
    rw [habs]
    simp only [List.length_append, toBeBytes_length, ht]
    omega
  have hdrop4 : c.as_bytes.drop 4 =
      c.chunk_type.bytes ++ (c.data ++ toBeBytes c.crc) := by
    rw [habs]; exact List.drop_left' (toBeBytes_length _)
  have htype : typeField c.as_bytes = c.chunk_type := by
    unfold typeField
    rw [hdrop4, List.take_left' ht]
  have hdrop8 : c.as_bytes.drop 8 = c.data ++ toBeBytes c.crc := by
    have h48 : c.as_bytes.drop 8 = (c.as_bytes.drop 4).drop 4 := by
      rw [List.drop_drop]
    rw [h48, hdrop4]
    exact List.drop_left' ht
  have hdecl : declaredLength c.as_bytes = c.data.length := by
    unfold declaredLength
    rw [habs, List.take_left' (toBeBytes_length _),
      fromBeBytes_toBeBytes (by omega), hl]
  have hdata : dataField c.as_bytes = c.data := by
    unfold dataField
    rw [hdecl, hdrop8, List.take_left]
  have hstored : storedCrcField c.as_bytes = c.crc := by
    unfold storedCrcField
    rw [hdecl, hdrop8, List.drop_left,
      show (4 : Nat) = (toBeBytes c.crc).length from (toBeBytes_length _).symm,
      List.take_length, fromBeBytes_toBeBytes hcb]
  have hcomp : computedCrc c.as_bytes = c.crc := by
    unfold computedCrc
    rw [htype, hdata, ← hcrc]
  rw [tryFrom_eq, if_neg (by rw [hlen]; omega),
    if_neg (by rw [htype]; simp [hv]),
    if_neg (by rw [hlen, hdecl]; omega),
    if_neg (by rw [hcomp, hstored]; simp),
    hdecl, htype, hdata, hstored, ← hl]

/-- C1 (amended): `try_from` inverts `as_bytes` for every chunk whose type
passes `is_valid` — for `Chunk::new` under the byte-sized/32-bit-length
well-formedness implicit in Rust's `u8`/`u32` types, and unconditionally
for chunks returned by `try_from` on byte-sized input. -/
theorem chunk_roundtrip :
    (∀ (t : ChunkType) (data : List Nat),
      t.bytes.length = 4 → (∀ b ∈ t.bytes, b < 256) → t.is_valid = true →
      (∀ b ∈ data, b < 256) → data.length < 2 ^ 32 →
      Chunk.tryFrom (Chunk.new t data).as_bytes = .ok (Chunk.new t data)) ∧
    (∀ (bs : List Nat) (c : Chunk), (∀ b ∈ bs, b < 256) →
      Chunk.tryFrom bs = .ok c → Chunk.tryFrom c.as_bytes = .ok c) := by
  constructor
  · intro t data ht htb hv hdb hlt
    apply tryFrom_as_bytes ht hv
    · exact Nat.mod_eq_of_lt hlt
    · exact hlt
    · rfl
    · refine checksum_ieee_lt ?_
      intro b hb
      rcases List.mem_append.1 hb with h | h
      · exact htb b h
      · exact hdb b h
  · intro bs c hb h
    obtain ⟨hc, h12, hv, hfit, hcrc⟩ := tryFrom_ok_inv h
    have hsub8 : ∀ b ∈ bs.drop 8, b < 256 :=
      fun b hbb => hb b (List.drop_subset 8 bs hbb)
    have hstored_lt : storedCrcField bs < 2 ^ 32 := by
      refine fromBeBytes_lt (List.length_take_le _ _) ?_
      intro b hbb
      exact hsub8 b
        (List.drop_subset _ _ (List.take_subset _ _ hbb))
    have hdecl_lt : declaredLength bs < 2 ^ 32 := by
      refine fromBeBytes_lt (List.length_take_le _ _) ?_
      intro b hbb
      exact hb b (List.take_subset _ _ hbb)
    subst hc
    apply tryFrom_as_bytes (typeField_length h12) hv
    · exact (dataField_length hfit).symm
    · rw [dataField_length hfit]; exact hdecl_lt
    · exact hcrc.symm
    · exact hstored_lt

/-- C1 counterexample: a chunk built by `Chunk::new` with the letters-only
but reserved-bit-invalid type "Rust" does not round-trip — `try_from`
rejects its serialization with `InvalidChunkType`. -/
theorem chunk_roundtrip_counterexample :
    Chunk.tryFrom (Chunk.new ⟨[82, 117, 115, 116]⟩ []).as_bytes =
      .err .invalidChunkType ∧
    Chunk.tryFrom (Chunk.new ⟨[82, 117, 115, 116]⟩ []).as_bytes ≠
      .ok (Chunk.new ⟨[82, 117, 115, 116]⟩ []) := by
  refine ⟨by decide, by decide⟩

/-- C1 witness: the round-trip at a fresh "RuSt"/"Hi" chunk and at the
chunk parsed from a well-formed empty-payload "RuSt" buffer. -/
theorem chunk_roundtrip_witness :
    Chunk.tryFrom (Chunk.new ⟨[82, 117, 83, 116]⟩ [72, 105]).as_bytes =
      .ok (Chunk.new ⟨[82, 117, 83, 116]⟩ [72, 105]) ∧
    Chunk.tryFrom (⟨0, ⟨[82, 117, 83, 116]⟩, [], 3565422908⟩ : Chunk).as_bytes =
      .ok ⟨0, ⟨[82, 117, 83, 116]⟩, [], 3565422908⟩ :=
  ⟨chunk_roundtrip.1 ⟨[82, 117, 83, 116]⟩ [72, 105] (by decide) (by decide)
     (by decide) (by decide) (by norm_num),
   chunk_roundtrip.2 [0, 0, 0, 0, 82, 117, 83, 116, 212, 132, 9, 60]
     ⟨0, ⟨[82, 117, 83, 116]⟩, [], 3565422908⟩ (by decide) (by decide)⟩

/-! ## C10: parse consumes only a prefix -/

/-- C10: on every input `try_from` accepts, with `L` the declared length,
the result only depends on the first `12 + L` bytes: parsing just that
prefix returns the same chunk, and appending arbitrary trailing bytes
neither fails nor changes the result. -/
theorem tryFrom_prefix_only (bs : List Nat) (c : Chunk)
    (h : Chunk.tryFrom bs = .ok c) :
    Chunk.tryFrom (bs.take (12 + declaredLength bs)) = .ok c ∧
    ∀ extra : List Nat, Chunk.tryFrom (bs ++ extra) = .ok c := by
  obtain ⟨hc, h12, hv, hfit, hcrc⟩ := tryFrom_ok_inv h
  constructor
  · set m := 12 + declaredLength bs with hm
    have ht4 : (bs.take m).take 4 = bs.take 4 := by
      rw [List.take_take, Nat.min_eq_left (by omega)]
    have hdecl' : declaredLength (bs.take m) = declaredLength bs := by
      unfold declaredLength; rw [ht4]
    have htype' : typeField (bs.take m) = typeField bs := by
      unfold typeField
      rw [List.drop_take, List.take_take, Nat.min_eq_left (by omega)]
    have hd8 : (bs.take m).drop 8 = (bs.drop 8).take (m - 8) :=
      List.drop_take m 8 bs
    have hdata' : dataField (bs.take m) = dataField bs := by
      unfold dataField
      rw [hdecl', hd8, List.take_take, Nat.min_eq_left (by omega)]
    have hstored' : storedCrcField (bs.take m) = storedCrcField bs := by
      unfold storedCrcField
      rw [hdecl', hd8, List.drop_take, List.take_take,
        Nat.min_eq_left (by omega)]
    have hcomp' : computedCrc (bs.take m) = computedCrc bs := by
      unfold computedCrc; rw [htype', hdata']
    have hlen' : (bs.take m).length = m := by
      simp only [List.length_take]; omega
    rw [tryFrom_eq, if_neg (by rw [hlen']; omega),
      if_neg (by rw [htype']; simp [hv]),
      if_neg (by rw [hlen', hdecl']; omega),
      if_neg (by rw [hcomp', hstored']; simp [hcrc]),
      hdecl', htype', hdata', hstored']
    exact congrArg _ hc.symm
  · intro e
    have at4 : (bs ++ e).take 4 = bs.take 4 :=
      List.take_append_of_le_length (by omega)
    have adecl : declaredLength (bs ++ e) = declaredLength bs := by
      unfold declaredLength; rw [at4]
    have ad4 : (bs ++ e).drop 4 = bs.drop 4 ++ e :=
      List.drop_append_of_le_length (by omega)
    have atype : typeField (bs ++ e) = typeField bs := by
      unfold typeField
      rw [ad4, List.take_append_of_le_length
        (by simp only [List.length_drop]; omega)]
    have ad8 : (bs ++ e).drop 8 = bs.drop 8 ++ e :=
      List.drop_append_of_le_length (by omega)
    have adata : dataField (bs ++ e) = dataField bs := by
      unfold dataField
      rw [adecl, ad8, List.take_append_of_le_length
        (by simp only [List.length_drop]; omega)]
    have astored : storedCrcField (bs ++ e) = storedCrcField bs := by
      unfold storedCrcField
      rw [adecl, ad8, List.drop_append_of_le_length
        (by simp only [List.length_drop]; omega),
        List.take_append_of_le_length
        (by simp only [List.length_drop]; omega)]
    have acomp : computedCrc (bs ++ e) = computedCrc bs := by
      unfold computedCrc; rw [atype, adata]
    have alen : 12 + declaredLength bs ≤ (bs ++ e).length := by
      simp only [List.length_append]; omega
    rw [tryFrom_eq, if_neg (by simp only [List.length_append]; omega),
      if_neg (by rw [atype]; simp [hv]),
      if_neg (by rw [adecl]; omega),
      if_neg (by rw [acomp, astored]; simp [hcrc]),
      adecl, atype, adata, astored]
    exact congrArg _ hc.symm

/-- C10 witness: on a well-formed 12-byte "RuSt" chunk, both the exact
prefix parse and the parse with three trailing garbage bytes return the
same chunk. -/
theorem tryFrom_prefix_only_witness :
    Chunk.tryFrom (([0, 0, 0, 0, 82, 117, 83, 116, 212, 132, 9, 60] :
        List Nat).take
      (12 + declaredLength [0, 0, 0, 0, 82, 117, 83, 116, 212, 132, 9, 60])) =
      .ok ⟨0, ⟨[82, 117, 83, 116]⟩, [], 3565422908⟩ ∧
    Chunk.tryFrom ([0, 0, 0, 0, 82, 117, 83, 116, 212, 132, 9, 60] ++
        [1, 2, 3]) =
      .ok ⟨0, ⟨[82, 117, 83, 116]⟩, [], 3565422908⟩ :=
  ⟨(tryFrom_prefix_only _ _ (by decide)).1,
   (tryFrom_prefix_only _ _ (by decide)).2 [1, 2, 3]⟩

/-! ## CRC-32 sensitivity to single-byte changes -/

/-- The top bit of the (bit-reversed) CRC-32 polynomial is set. -/
lemma crcPoly_testBit31 : Nat.testBit crcPoly 31 = true := by decide

/-- One CRC bit step is injective on 32-bit states: bit 31 of the output
recovers the low bit of the input (the polynomial's top bit is set), and
the rest is an xor-cancellable shift. -/
lemma crcStep_inj {a b : Nat} (ha : a < 2 ^ 32) (hb : b < 2 ^ 32)
    (h : crcStep a = crcStep b) : a = b := by
  have h31a : Nat.testBit (a / 2) 31 = false :=
    Nat.testBit_lt_two_pow (by omega)
  have h31b : Nat.testBit (b / 2) 31 = false :=
    Nat.testBit_lt_two_pow (by omega)
  unfold crcStep at h
  by_cases pa : a % 2 = 1 <;> by_cases pb : b % 2 = 1
  · rw [if_pos pa, if_pos pb] at h
    have h2 : a / 2 = b / 2 := by
      have h3 := congrArg (fun x => x ^^^ crcPoly) h
      simpa [Nat.xor_cancel_right] using h3
    omega
  · rw [if_pos pa, if_neg pb] at h
    have h3 := congrArg (fun x => Nat.testBit x 31) h
    simp [Nat.testBit_xor, h31a, h31b, crcPoly_testBit31] at h3
  · rw [if_neg pa, if_pos pb] at h
    have h3 := congrArg (fun x => Nat.testBit x 31) h
    simp [Nat.testBit_xor, h31a, h31b, crcPoly_testBit31] at h3
  · rw [if_neg pa, if_neg pb] at h
    omega

/-- Eight CRC bit steps are injective on 32-bit states. -/
lemma crcRound_inj {a b : Nat} (ha : a < 2 ^ 32) (hb : b < 2 ^ 32)
    (h : crcRound a = crcRound b) : a = b := by
  have s1a := crcStep_lt ha
  have s1b := crcStep_lt hb
  have s2a := crcStep_lt s1a
  have s2b := crcStep_lt s1b
  have s3a := crcStep_lt s2a
  have s3b := crcStep_lt s2b
  have s4a := crcStep_lt s3a
  have s4b := crcStep_lt s3b
  have s5a := crcStep_lt s4a
  have s5b := crcStep_lt s4b
  have s6a := crcStep_lt s5a
  have s6b := crcStep_lt s5b
  have s7a := crcStep_lt s6a
  have s7b := crcStep_lt s6b
  unfold crcRound at h
  exact crcStep_inj ha hb (crcStep_inj s1a s1b (crcStep_inj s2a s2b
    (crcStep_inj s3a s3b (crcStep_inj s4a s4b (crcStep_inj s5a s5b
      (crcStep_inj s6a s6b (crcStep_inj s7a s7b h)))))))

/-- Absorbing two different bytes from the same 32-bit state yields
different states. -/
lemma crcUpdate_inj_byte {c b b' : Nat} (hc : c < 2 ^ 32) (hb : b < 256)
    (hb' : b' < 256) (hne : b ≠ b') : crcUpdate c b ≠ crcUpdate c b' := by
  intro h
  apply hne
  unfold crcUpdate at h
  have h2 := crcRound_inj (Nat.xor_lt_two_pow hc (by omega))
    (Nat.xor_lt_two_pow hc (by omega)) h
  have h3 := congrArg (fun x => c ^^^ x) h2
  simpa [Nat.xor_cancel_left] using h3

/-- Absorbing the same byte from two different 32-bit states yields
different states. -/
lemma crcUpdate_inj_state {s s' b : Nat} (hs : s < 2 ^ 32)
    (hs' : s' < 2 ^ 32) (hb : b < 256) (hne : s ≠ s') :
    crcUpdate s b ≠ crcUpdate s' b := by
  intro h
  apply hne
  unfold crcUpdate at h
  have h2 := crcRound_inj (Nat.xor_lt_two_pow hs (by omega))
    (Nat.xor_lt_two_pow hs' (by omega)) h
  have h3 := congrArg (fun x => x ^^^ b) h2
  simpa [Nat.xor_cancel_right] using h3

/-- Folding the same byte data from two different 32-bit states yields
different results. -/
lemma crcFold_ne : ∀ (l : List Nat) {s s' : Nat}, s < 2 ^ 32 →
    s' < 2 ^ 32 → s ≠ s' → (∀ b ∈ l, b < 256) →
    crcFold s l ≠ crcFold s' l := by
  intro l
  induction l with
  | nil => intro s s' _ _ hne _; exact hne
  | cons b t ih =>
    intro s s' hs hs' hne hb
    have hb256 : b < 256 := hb b (List.mem_cons_self b t)
    exact ih (crcUpdate_lt hs hb256) (crcUpdate_lt hs' hb256)
      (crcUpdate_inj_state hs hs' hb256 hne)
      (fun x hx => hb x (List.mem_cons_of_mem b hx))

/-- Changing one byte of the data changes the CRC fold from any 32-bit
starting state. -/
lemma crcFold_set_ne : ∀ (l : List Nat) (i : Nat) (b' : Nat) (s : Nat),
    s < 2 ^ 32 → (∀ b ∈ l, b < 256) → b' < 256 → i < l.length →
    b' ≠ l.getD i 0 → crcFold s (l.set i b') ≠ crcFold s l := by
  intro l
  induction l with
  | nil => intro i b' s _ _ _ hi _; simp at hi
  | cons a t ih =>
    intro i b' s hs hb hb' hi hne
    have ha : a < 256 := hb a (List.mem_cons_self a t)
    have htb : ∀ x ∈ t, x < 256 := fun x hx => hb x (List.mem_cons_of_mem a hx)
    cases i with
    | zero =>
      exact crcFold_ne t (crcUpdate_lt hs hb') (crcUpdate_lt hs ha)
        (crcUpdate_inj_byte hs hb' ha (by simpa using hne)) htb
    | succ j =>
      exact ih j b' (crcUpdate s a) (crcUpdate_lt hs ha) htb hb'
        (by simpa using hi) (by simpa using hne)

/-- CRC-32 detects every single-byte change. -/
lemma checksum_ieee_set_ne {l : List Nat} {i b' : Nat}
    (hb : ∀ b ∈ l, b < 256) (hb' : b' < 256) (hi : i < l.length)
    (hne : b' ≠ l.getD i 0) :
    checksum_ieee (l.set i b') ≠ checksum_ieee l := by
  unfold checksum_ieee
  intro h
  have h2 : crcFold 0xFFFFFFFF (l.set i b') = crcFold 0xFFFFFFFF l := by
    have h3 := congrArg (fun x => x ^^^ 0xFFFFFFFF) h
    simpa [Nat.xor_cancel_right] using h3
  exact crcFold_set_ne l i b' 0xFFFFFFFF (by norm_num) hb hb' hi hne h2

/-! ## C5: parse detects single-byte corruption through the CRC -/

/-- C5 (amended): for every chunk satisfying the structural invariants that
Rust's `u8`/`u32` types give, changing any single byte of the type or
payload region of its serialized bytes to a different value — provided,
when the byte lies in the type region, that the modified type still passes
`is_valid` — makes `try_from` fail with `InvalidCrc` whose expected
(stored) and actual (recomputed) values differ. -/
theorem crc_sensitivity (c : Chunk) (j b' : Nat)
    (ht : c.chunk_type.bytes.length = 4)
    (htb : ∀ b ∈ c.chunk_type.bytes, b < 256)
    (hdb : ∀ b ∈ c.data, b < 256)
    (hl : c.length = c.data.length)
    (hlt : c.data.length < 2 ^ 32)
    (hcrc : c.crc = checksum_ieee (c.chunk_type.bytes ++ c.data))
    (hj : j < 4 + c.data.length)
    (hb' : b' < 256)
    (hne : b' ≠ c.as_bytes.getD (4 + j) 0)
    (hv' : (typeField (c.as_bytes.set (4 + j) b')).is_valid = true) :
    Chunk.tryFrom (c.as_bytes.set (4 + j) b') =
      .err (.invalidCrc c.crc (computedCrc (c.as_bytes.set (4 + j) b'))) ∧
    computedCrc (c.as_bytes.set (4 + j) b') ≠ c.crc := by
  set T := c.chunk_type.bytes ++ c.data with hT
  have hTlen : T.length = 4 + c.data.length := by
    rw [hT, List.length_append, ht]
  have hTb : ∀ b ∈ T, b < 256 := by
    intro b hb
    rcases List.mem_append.1 hb with h | h
    · exact htb b h
    · exact hdb b h
  have hcb : c.crc < 2 ^ 32 := hcrc ▸ checksum_ieee_lt hTb
  have hclen : c.length < 2 ^ 32 := hl ▸ hlt
  have habs : c.as_bytes = toBeBytes c.length ++ (T ++ toBeBytes c.crc) := by
    simp [Chunk.as_bytes, hT, List.append_assoc]
  set u := T.set j b' with hu
  have hulen : u.length = 4 + c.data.length := by
    rw [hu, List.length_set, hTlen]
  have hset : c.as_bytes.set (4 + j) b' =
      toBeBytes c.length ++ (u ++ toBeBytes c.crc) := by
    rw [habs, List.set_append_right _ _ (by rw [toBeBytes_length]; omega),
      show 4 + j - (toBeBytes c.length).length = j from by
        rw [toBeBytes_length]; omega,
      List.set_append_left _ _ (by rw [hTlen]; omega)]
  have hlen' : (c.as_bytes.set (4 + j) b').length = 12 + c.data.length := by
    rw [hset]
    simp only [List.length_append, toBeBytes_length, hulen]
    omega
  have hdecl' : declaredLength (c.as_bytes.set (4 + j) b') = c.data.length := by
    unfold declaredLength
    rw [hset, List.take_left' (toBeBytes_length _),
      fromBeBytes_toBeBytes hclen, hl]
  have hdrop4 : (c.as_bytes.set (4 + j) b').drop 4 = u ++ toBeBytes c.crc := by
    rw [hset]
    exact List.drop_left' (toBeBytes_length _)
  have htype' : typeField (c.as_bytes.set (4 + j) b') = ⟨u.take 4⟩ := by
    unfold typeField
    rw [hdrop4, List.take_append_of_le_length (by rw [hulen]; omega)]
  have hdrop8 : (c.as_bytes.set (4 + j) b').drop 8 =
      u.drop 4 ++ toBeBytes c.crc := by
    have h48 : (c.as_bytes.set (4 + j) b').drop 8 =
        ((c.as_bytes.set (4 + j) b').drop 4).drop 4 := by
      rw [List.drop_drop]
    rw [h48, hdrop4, List.drop_append_of_le_length (by rw [hulen]; omega)]
  have hdata' : dataField (c.as_bytes.set (4 + j) b') = u.drop 4 := by
    unfold dataField
    rw [hdecl', hdrop8,
      List.take_append_of_le_length
        (by simp only [List.length_drop, hulen]; omega),
      List.take_of_length_le (by simp only [List.length_drop, hulen]; omega)]
  have hstored' : storedCrcField (c.as_bytes.set (4 + j) b') = c.crc := by
    unfold storedCrcField
    rw [hdecl', hdrop8,
      List.drop_left' (by simp only [List.length_drop, hulen]; omega),
      show (4 : Nat) = (toBeBytes c.crc).length from (toBeBytes_length _).symm,
      List.take_length, fromBeBytes_toBeBytes hcb]
  have hcomp' : computedCrc (c.as_bytes.set (4 + j) b') = checksum_ieee u := by
    unfold computedCrc
    rw [htype', hdata']
    show checksum_ieee (u.take 4 ++ u.drop 4) = checksum_ieee u
    rw [List.take_append_drop]
  have hgd : c.as_bytes.getD (4 + j) 0 = T.getD j 0 := by
    rw [habs, List.getD_eq_getElem?_getD,
      List.getElem?_append_right (by rw [toBeBytes_length]; omega),
      show 4 + j - (toBeBytes c.length).length = j from by
        rw [toBeBytes_length]; omega,
      List.getElem?_append_left (by rw [hTlen]; omega),
      ← List.getD_eq_getElem?_getD]
  have hTne : checksum_ieee u ≠ checksum_ieee T := by
    rw [hu]
    exact checksum_ieee_set_ne hTb hb' (by rw [hTlen]; omega) (hgd ▸ hne)
  refine ⟨?_, ?_⟩
  · rw [tryFrom_eq, if_neg (by rw [hlen']; omega), if_neg (by simp [hv']),
      if_neg (by rw [hlen', hdecl']; omega),
      if_pos (by rw [hcomp', hstored', hcrc]; exact hTne), hstored']
  · rw [hcomp', hcrc]
    exact hTne

/-- C5 counterexample: flipping the first type byte of a serialized "RuSt"
chunk to 18 (not a letter) makes `try_from` fail with `InvalidChunkType`,
not with a CRC mismatch as the claim states. -/
theorem crc_sensitivity_counterexample :
    Chunk.tryFrom ((Chunk.new ⟨[82, 117, 83, 116]⟩ []).as_bytes.set 4 18) =
      .err .invalidChunkType ∧
    (18 : Nat) ≠ (Chunk.new ⟨[82, 117, 83, 116]⟩ []).as_bytes.getD 4 0 := by
  refine ⟨by decide, by decide⟩

set_option maxRecDepth 8192 in
/-- C5 witness: zeroing the first payload byte of a "RuSt"/"Hi" chunk's
serialization trips the CRC comparison. -/
theorem crc_sensitivity_witness :
    Chunk.tryFrom
      ((⟨2, ⟨[82, 117, 83, 116]⟩, [72, 105], 1194859473⟩ : Chunk).as_bytes.set
        (4 + 4) 0) =
      .err (.invalidCrc 1194859473
        (computedCrc
          ((⟨2, ⟨[82, 117, 83, 116]⟩, [72, 105], 1194859473⟩ : Chunk).as_bytes.set
            (4 + 4) 0))) :=
  (crc_sensitivity ⟨2, ⟨[82, 117, 83, 116]⟩, [72, 105], 1194859473⟩ 4 0
    (by decide) (by decide) (by decide) (by decide) (by norm_num) (by decide)
    (by decide) (by decide) (by decide) (by decide)).1

/-! ## C9: UTF-8 decoding of the payload -/

/-- The continuation-byte test unfolded. -/
lemma isContByte_iff (b : Nat) : isContByte b = true ↔ 0x80 ≤ b ∧ b < 0xC0 := by
  simp [isContByte, Bool.and_eq_true, decide_eq_true_eq]

/-- Every scalar encodes to at least one byte. -/
lemma utf8EncodeChar_ne_nil (c : Nat) : utf8EncodeChar c ≠ [] := by
  unfold utf8EncodeChar
  split_ifs <;> simp

/-- Soundness of the one-character decoder: a decoded scalar is a scalar
value and its encoding is exactly the bytes consumed. -/
lemma utf8DecodeChar_sound : ∀ {l : List Nat} {c : Nat} {rest : List Nat},
    utf8DecodeChar l = some (c, rest) →
    IsScalar c ∧ utf8EncodeChar c ++ rest = l := by
  intro l c rest h
  rcases l with _ | ⟨b, t⟩
  · exact absurd h (by simp [utf8DecodeChar])
  simp only [utf8DecodeChar] at h
  split_ifs at h with h1 h2 h3 h4 h5
  · -- one byte
    simp only [Option.some.injEq, Prod.mk.injEq] at h
    obtain ⟨rfl, rfl⟩ := h
    refine ⟨⟨by omega, Or.inl (by omega)⟩, ?_⟩
    rw [utf8EncodeChar, if_pos h1]
    rfl
  · -- two bytes
    rcases t with _ | ⟨b1, t'⟩
    · simp [utf8Cont2] at h
    simp only [utf8Cont2] at h
    split_ifs at h with hc1
    have hb1 := (isContByte_iff b1).1 hc1
    simp only [Option.some.injEq, Prod.mk.injEq] at h
    obtain ⟨rfl, rfl⟩ := h
    refine ⟨⟨by omega, Or.inl (by omega)⟩, ?_⟩
    rw [utf8EncodeChar, if_neg (by omega), if_pos (by omega)]
    have e1 : 0xC0 + ((b - 0xC0) * 64 + (b1 - 0x80)) / 64 = b := by omega
    have e2 : 0x80 + ((b - 0xC0) * 64 + (b1 - 0x80)) % 64 = b1 := by omega
    rw [e1, e2]
    rfl
  · -- three bytes
    rcases t with _ | ⟨b1, t1⟩
    · simp [utf8Cont3] at h
    rcases t1 with _ | ⟨b2, t'⟩
    · simp [utf8Cont3] at h
    simp only [utf8Cont3] at h
    split_ifs at h with hc hlow hsur
    rw [Bool.and_eq_true] at hc
    have hb1 := (isContByte_iff b1).1 hc.1
    have hb2 := (isContByte_iff b2).1 hc.2
    simp only [Bool.and_eq_true, decide_eq_true_eq, not_and, not_le] at hsur
    simp only [Option.some.injEq, Prod.mk.injEq] at h
    obtain ⟨rfl, rfl⟩ := h
    simp only [not_lt] at hlow
    refine ⟨⟨by omega, by omega⟩, ?_⟩
    rw [utf8EncodeChar, if_neg (by omega), if_neg (by omega),
      if_pos (by omega)]
    have e1 : 0xE0 + ((b - 0xE0) * 4096 + (b1 - 0x80) * 64 + (b2 - 0x80)) /
        4096 = b := by omega
    have e2 : 0x80 + ((b - 0xE0) * 4096 + (b1 - 0x80) * 64 + (b2 - 0x80)) /
        64 % 64 = b1 := by omega
    have e3 : 0x80 + ((b - 0xE0) * 4096 + (b1 - 0x80) * 64 + (b2 - 0x80)) %
        64 = b2 := by omega
    rw [e1, e2, e3]
    rfl
  · -- four bytes
    rcases t with _ | ⟨b1, t1⟩
    · simp [utf8Cont4] at h
    rcases t1 with _ | ⟨b2, t2⟩
    · simp [utf8Cont4] at h
    rcases t2 with _ | ⟨b3, t'⟩
    · simp [utf8Cont4] at h
    simp only [utf8Cont4] at h
    split_ifs at h with hc hlow hhigh
    rw [Bool.and_eq_true, Bool.and_eq_true] at hc
    obtain ⟨⟨hc1, hc2⟩, hc3⟩ := hc
    have hb1 := (isContByte_iff b1).1 hc1
    have hb2 := (isContByte_iff b2).1 hc2
    have hb3 := (isContByte_iff b3).1 hc3
    simp only [Option.some.injEq, Prod.mk.injEq] at h
    obtain ⟨rfl, rfl⟩ := h
    simp only [not_lt, not_le] at hlow hhigh
    refine ⟨⟨by omega, Or.inr (by omega)⟩, ?_⟩
    rw [utf8EncodeChar, if_neg (by omega), if_neg (by omega),
      if_neg (by omega)]
    have e1 : 0xF0 + ((b - 0xF0) * 262144 + (b1 - 0x80) * 4096 +
        (b2 - 0x80) * 64 + (b3 - 0x80)) / 262144 = b := by omega
    have e2 : 0x80 + ((b - 0xF0) * 262144 + (b1 - 0x80) * 4096 +
        (b2 - 0x80) * 64 + (b3 - 0x80)) / 4096 % 64 = b1 := by omega
    have e3 : 0x80 + ((b - 0xF0) * 262144 + (b1 - 0x80) * 4096 +
        (b2 - 0x80) * 64 + (b3 - 0x80)) / 64 % 64 = b2 := by omega
    have e4 : 0x80 + ((b - 0xF0) * 262144 + (b1 - 0x80) * 4096 +
        (b2 - 0x80) * 64 + (b3 - 0x80)) % 64 = b3 := by omega
    rw [e1, e2, e3, e4]
    rfl

/-- Completeness of the one-character decoder on an encoded scalar. -/
lemma utf8DecodeChar_encodeChar {c : Nat} (hs : IsScalar c) (l : List Nat) :
    utf8DecodeChar (utf8EncodeChar c ++ l) = some (c, l) := by
  obtain ⟨hlt, hsur⟩ := hs
  by_cases h1 : c < 0x80
  · rw [show utf8EncodeChar c = [c] from by rw [utf8EncodeChar, if_pos h1]]
    simp only [List.cons_append, List.nil_append, utf8DecodeChar]
    rw [if_pos h1]
  · by_cases h2 : c < 0x800
    · rw [show utf8EncodeChar c = [0xC0 + c / 64, 0x80 + c % 64] from by
        rw [utf8EncodeChar, if_neg h1, if_pos h2]]
      simp only [List.cons_append, List.nil_append, utf8DecodeChar]
      rw [if_neg (by omega), if_neg (by omega), if_pos (by omega)]
      simp only [utf8Cont2]
      rw [if_pos ((isContByte_iff _).2 ⟨by omega, by omega⟩)]
      have e : (0xC0 + c / 64 - 0xC0) * 64 + (0x80 + c % 64 - 0x80) = c := by
        omega
      rw [e]
    · by_cases h3 : c < 0x10000
      · rw [show utf8EncodeChar c =
            [0xE0 + c / 4096, 0x80 + c / 64 % 64, 0x80 + c % 64] from by
          rw [utf8EncodeChar, if_neg h1, if_neg h2, if_pos h3]]
        simp only [List.cons_append, List.nil_append, utf8DecodeChar]
        rw [if_neg (by omega), if_neg (by omega), if_neg (by omega),
          if_pos (by omega)]
        simp only [utf8Cont3]
        rw [if_pos (by simp only [Bool.and_eq_true, isContByte_iff]; omega)]
        have e : (0xE0 + c / 4096 - 0xE0) * 4096 +
            (0x80 + c / 64 % 64 - 0x80) * 64 + (0x80 + c % 64 - 0x80) = c := by
          omega
        rw [e, if_neg (by omega),
          if_neg (by simp only [Bool.and_eq_true, decide_eq_true_eq]; omega)]
      · rw [show utf8EncodeChar c = [0xF0 + c / 262144, 0x80 + c / 4096 % 64,
            0x80 + c / 64 % 64, 0x80 + c % 64] from by
          rw [utf8EncodeChar, if_neg h1, if_neg h2, if_neg h3]]
        simp only [List.cons_append, List.nil_append, utf8DecodeChar]
        rw [if_neg (by omega), if_neg (by omega), if_neg (by omega),
          if_neg (by omega), if_pos (by omega)]
        simp only [utf8Cont4]
        rw [if_pos (by simp only [Bool.and_eq_true, isContByte_iff]; omega)]
        have e : (0xF0 + c / 262144 - 0xF0) * 262144 +
            (0x80 + c / 4096 % 64 - 0x80) * 4096 +
            (0x80 + c / 64 % 64 - 0x80) * 64 + (0x80 + c % 64 - 0x80) = c := by
          omega
        rw [e, if_neg (by omega), if_neg (by omega)]

/-- Soundness of the decoding loop: any decode result consists of scalar
values whose encoding is exactly the input. -/
lemma utf8DecodeAux_sound : ∀ (fuel : Nat) (l cs : List Nat),
    utf8DecodeAux fuel l = some cs →
    (∀ x ∈ cs, IsScalar x) ∧ utf8Encode cs = l := by
  intro fuel
  induction fuel with
  | zero =>
    intro l cs h
    rcases l with _ | ⟨b, t⟩
    · simp only [utf8DecodeAux, Option.some.injEq] at h
      subst h
      exact ⟨by simp, rfl⟩
    · exact absurd h (by simp [utf8DecodeAux])
  | succ n ih =>
    intro l cs h
    rcases l with _ | ⟨b, t⟩
    · simp only [utf8DecodeAux, Option.some.injEq] at h
      subst h
      exact ⟨by simp, rfl⟩
    · simp only [utf8DecodeAux] at h
      cases hd : utf8DecodeChar (b :: t) with
      | none => rw [hd] at h; exact absurd h (by simp)
      | some p =>
        obtain ⟨c, rest⟩ := p
        rw [hd] at h
        simp only [Option.map_eq_some'] at h
        obtain ⟨cs', hcs', hcons⟩ := h
        obtain ⟨hsc, henc⟩ := ih rest cs' hcs'
        obtain ⟨hscal, hbytes⟩ := utf8DecodeChar_sound hd
        subst hcons
        constructor
        · intro x hx
          rcases List.mem_cons.1 hx with rfl | hx'
          · exact hscal
          · exact hsc x hx'
        · show utf8Encode (c :: cs') = b :: t
          simp only [utf8Encode, List.map_cons, List.flatten_cons]
          rw [show (List.map utf8EncodeChar cs').flatten = utf8Encode cs'
            from rfl, henc, hbytes]

/-- Completeness of the decoding loop on an encoded scalar sequence, given
enough fuel. -/
lemma utf8DecodeAux_complete : ∀ (cs : List Nat) (fuel : Nat),
    (∀ x ∈ cs, IsScalar x) → (utf8Encode cs).length ≤ fuel →
    utf8DecodeAux fuel (utf8Encode cs) = some cs := by
  intro cs
  induction cs with
  | nil =>
    intro fuel _ _
    show utf8DecodeAux fuel [] = some []
    cases fuel <;> simp only [utf8DecodeAux]
  | cons c cs' ih =>
    intro fuel hsc hfuel
    have hc : IsScalar c := hsc c (List.mem_cons_self c cs')
    have hsc' : ∀ x ∈ cs', IsScalar x :=
      fun x hx => hsc x (List.mem_cons_of_mem c hx)
    have hee : utf8Encode (c :: cs') = utf8EncodeChar c ++ utf8Encode cs' := by
      simp only [utf8Encode, List.map_cons, List.flatten_cons]
    have hne : utf8EncodeChar c ≠ [] := utf8EncodeChar_ne_nil c
    have hpos : 1 ≤ (utf8EncodeChar c).length :=
      List.length_pos.2 hne
    rcases he : utf8EncodeChar c ++ utf8Encode cs' with _ | ⟨b, t⟩
    · exact absurd (List.append_eq_nil.1 he).1 hne
    rcases fuel with _ | f
    · exfalso
      rw [hee, he] at hfuel
      simp at hfuel
    have hlenf : (utf8Encode cs').length ≤ f := by
      rw [hee, List.length_append] at hfuel
      omega
    rw [hee, he]
    simp only [utf8DecodeAux]
    rw [← he, utf8DecodeChar_encodeChar hc]
    show (utf8DecodeAux f (utf8Encode cs')).map (c :: ·) = some (c :: cs')
    rw [ih f hsc' hlenf]
    rfl

/-- Soundness of `utf8Decode`. -/
lemma utf8Decode_sound {l cs : List Nat} (h : utf8Decode l = some cs) :
    (∀ x ∈ cs, IsScalar x) ∧ utf8Encode cs = l :=
  utf8DecodeAux_sound l.length l cs h

/-- Completeness of `utf8Decode`. -/
lemma utf8Decode_complete {cs : List Nat} (h : ∀ x ∈ cs, IsScalar x) :
    utf8Decode (utf8Encode cs) = some cs :=
  utf8DecodeAux_complete cs (utf8Encode cs).length h (le_refl _)

/-- C9: `data_as_string` fails exactly when the payload is not valid UTF-8
(the byte-level encoding of a sequence of Unicode scalar values), and on a
valid payload returns the decoded text. -/
theorem data_as_string_spec (c : Chunk) :
    (c.data_as_string = none ↔
      ¬ ∃ cs, (∀ x ∈ cs, IsScalar x) ∧ c.data = utf8Encode cs) ∧
    (∀ cs, (∀ x ∈ cs, IsScalar x) → c.data = utf8Encode cs →
      c.data_as_string = some cs) := by
  constructor
  · constructor
    · intro hnone hex
      obtain ⟨cs, hsc, henc⟩ := hex
      rw [Chunk.data_as_string, henc, utf8Decode_complete hsc] at hnone
      exact absurd hnone (by simp)
    · intro hnex
      cases hd : c.data_as_string with
      | none => rfl
      | some cs =>
        exact absurd ⟨cs, (utf8Decode_sound hd).1,
          (utf8Decode_sound hd).2.symm⟩ hnex
  · intro cs hsc henc
    rw [Chunk.data_as_string, henc]
    exact utf8Decode_complete hsc

/-- C9 witness: the payload "Hi" decodes to the scalars of "Hi", via the
success arm of the specification theorem. -/
theorem data_as_string_spec_witness :
    (⟨2, ⟨[82, 117, 83, 116]⟩, [72, 105], 1194859473⟩ :
      Chunk).data_as_string = some [72, 105] :=
  (data_as_string_spec _).2 [72, 105] (by decide) (by decide)

end PNGme
